import Mathlib

/-
Verification of the task-manager core pipeline (src/task_manager.py):
aggregation → deduplication → attention-tax scoring → critical classification →
capacity filtering → recommendation, plus completion marking.

Conventions of the shallow embedding:
* Python `datetime` values are epoch seconds (`Int`); `timedelta.days` is floor
  division by 86400, matching Python's normalization at second granularity.
* Python `float` is modelled as `ℚ`; every concrete constant appearing in the
  configuration or the claims (5, 2.0, 1.5, 0.80, …) is exactly representable
  as a binary float, and for the similarity threshold the rationals produced
  by `ratio` on short strings are spaced far wider than double rounding error,
  so `ℚ` comparisons agree with the float comparisons the code performs.
* Python dicts keyed by strings are association lists; `dict.get(k, d)` is a
  lookup with default.
* A raised `KeyError` is modelled as `Option.none` (the only raising lookup the
  pipeline contains is the hard-coded level table in `_filter_by_capacity`).
* `difflib.SequenceMatcher.ratio()` (stdlib collaborator) is modelled for
  inputs of length < 200, where autojunk is inactive: total matched characters
  are computed by the documented Ratcliff/Obershelp recursion — repeatedly take
  the longest matching block (earliest in `a`, then earliest in `b`, among the
  maximal ones) and recurse on both sides — and `ratio = 2*M/(len a + len b)`.
  The model was cross-checked against CPython's difflib on the concrete pairs
  used below.
-/

set_option maxRecDepth 40000

namespace TaskMgr

/-- Model of the Python dict stored in `Task.metadata`, restricted to the keys
the pipeline reads: `raw_line` and `merged_from` (a list of
`(title, sources, metadata)` records appended by `_merge_duplicate`), plus the
list of any other keys present, which is needed to model dict truthiness. -/
inductive Metadata : Type where
  | mk (raw_line : Option String)
       (merged_from : Option (List (String × List String × Metadata)))
       (otherKeys : List String)

/-- The `raw_line` entry of the metadata dict, when present. -/
def Metadata.raw_line : Metadata → Option String
  | .mk r _ _ => r

/-- The `merged_from` entry of the metadata dict, when present. -/
def Metadata.merged_from : Metadata → Option (List (String × List String × Metadata))
  | .mk _ m _ => m

/-- The remaining keys of the metadata dict. -/
def Metadata.otherKeys : Metadata → List String
  | .mk _ _ o => o

/-- Python dict truthiness: a metadata dict is falsy iff it has no keys. -/
def Metadata.isEmpty (m : Metadata) : Bool :=
  m.raw_line.isNone && m.merged_from.isNone && m.otherKeys.isEmpty

mutual

/-- Decidable equality for `Metadata` (Python `dict.__eq__`). -/
def mdecEq : (a b : Metadata) → Decidable (a = b)
  | .mk r1 m1 o1, .mk r2 m2 o2 =>
    match decEq r1 r2 with
    | isFalse h => isFalse fun he => by cases he; exact h rfl
    | isTrue h1 =>
      match mdecEqOptList m1 m2 with
      | isFalse h => isFalse fun he => by cases he; exact h rfl
      | isTrue h2 =>
        match decEq o1 o2 with
        | isFalse h => isFalse fun he => by cases he; exact h rfl
        | isTrue h3 => isTrue (by rw [h1, h2, h3])

/-- Decidable equality for optional `merged_from` lists. -/
def mdecEqOptList :
    (a b : Option (List (String × List String × Metadata))) → Decidable (a = b)
  | none, none => isTrue rfl
  | none, some _ => isFalse fun he => by cases he
  | some _, none => isFalse fun he => by cases he
  | some l1, some l2 =>
    match mdecEqList l1 l2 with
    | isTrue h => isTrue (by rw [h])
    | isFalse h => isFalse fun he => by cases he; exact h rfl

/-- Decidable equality for `merged_from` lists. -/
def mdecEqList :
    (a b : List (String × List String × Metadata)) → Decidable (a = b)
  | [], [] => isTrue rfl
  | [], _ :: _ => isFalse fun he => by cases he
  | _ :: _, [] => isFalse fun he => by cases he
  | (t1, s1, m1) :: xs, (t2, s2, m2) :: ys =>
    match decEq t1 t2 with
    | isFalse h => isFalse fun he => by cases he; exact h rfl
    | isTrue h1 =>
      match decEq s1 s2 with
      | isFalse h => isFalse fun he => by cases he; exact h rfl
      | isTrue h2 =>
        match mdecEq m1 m2 with
        | isFalse h => isFalse fun he => by cases he; exact h rfl
        | isTrue h3 =>
          match mdecEqList xs ys with
          | isFalse h => isFalse fun he => by cases he; exact h rfl
          | isTrue h4 => isTrue (by rw [h1, h2, h3, h4])

end

instance : DecidableEq Metadata := mdecEq

/-- The empty metadata dict (what `Task.__post_init__` installs for `None`). -/
def Metadata.empty : Metadata := .mk none none []

/-- Unified task representation across all systems (dataclass `Task`).
Equality is field-wise, as for a Python dataclass. -/
structure Task where
  id : String
  title : String
  priority : String
  energy : String
  attention : String
  due_date : Option Int
  source_systems : List String
  attention_tax : ℚ := 0
  metadata : Metadata := Metadata.empty
deriving DecidableEq

/-- The user's current energy and attention capacity (dataclass `Capacity`;
the timestamp field is omitted as no verified operation reads it). -/
structure Capacity where
  energy : String
  attention : String
deriving DecidableEq

/-- `str.strip()` on a list of characters: drop whitespace from both ends. -/
def trimBoth (l : List Char) : List Char :=
  ((l.dropWhile Char.isWhitespace).reverse.dropWhile Char.isWhitespace).reverse

/-- `title.lower().strip()` — the normalized title used by the deduplicator. -/
def normTitle (s : String) : List Char :=
  trimBoth (s.data.map Char.toLower)

/-- Whether `needle` is a prefix of `hay` (second argument). -/
def startsWithL : List Char → List Char → Bool
  | [], _ => true
  | _ :: _, [] => false
  | x :: xs, y :: ys => x == y && startsWithL xs ys

/-- Python substring test `needle in hay`. -/
def containsSub (hay needle : List Char) : Bool :=
  match hay with
  | [] => startsWithL needle []
  | c :: t => startsWithL needle (c :: t) || containsSub t needle

/-- Length of the common prefix of two character lists. -/
def commonPfx : List Char → List Char → Nat
  | x :: xs, y :: ys => if x = y then commonPfx xs ys + 1 else 0
  | _, _ => 0

/-- Inner scan of `find_longest_match`: try every start position in `b`
(suffixes paired with their index) against one start position in `a`,
keeping the first strictly longer match. -/
def bestInner (pa : Nat × List Char) :
    List (Nat × List Char) → Nat → Nat → Nat → Nat × Nat × Nat
  | [], bi, bj, bk => (bi, bj, bk)
  | pb :: rest, bi, bj, bk =>
    let k := commonPfx pa.2 pb.2
    if bk < k then bestInner pa rest pa.1 pb.1 k else bestInner pa rest bi bj bk

/-- Outer scan of `find_longest_match` over the start positions in `a`. -/
def bestOuter (bTails : List (Nat × List Char)) :
    List (Nat × List Char) → Nat → Nat → Nat → Nat × Nat × Nat
  | [], bi, bj, bk => (bi, bj, bk)
  | pa :: rest, bi, bj, bk =>
    match bestInner pa bTails bi bj bk with
    | (bi2, bj2, bk2) => bestOuter bTails rest bi2 bj2 bk2

/-- `SequenceMatcher.find_longest_match` on whole (sub)strings: the longest
matching block `(i, j, size)`, ties resolved to the earliest start in `a`,
then the earliest start in `b`. -/
def bestBlock (a b : List Char) : Nat × Nat × Nat :=
  bestOuter b.tails.enum a.tails.enum 0 0 0

/-- Total size of all matching blocks (`get_matching_blocks` recursion):
take the longest block, recurse left of it and right of it.  The fuel is
always sufficient because every recursive level strictly shrinks the
combined length. -/
def matchTotalAux : Nat → List Char → List Char → Nat
  | 0, _, _ => 0
  | fuel+1, a, b =>
    let t := bestBlock a b
    if t.2.2 = 0 then 0
    else
      matchTotalAux fuel (a.take t.1) (b.take t.2.1) + t.2.2 +
        matchTotalAux fuel (a.drop (t.1 + t.2.2)) (b.drop (t.2.1 + t.2.2))

/-- Total matched characters between two strings. -/
def matchTotal (a b : List Char) : Nat :=
  matchTotalAux (a.length + b.length + 1) a b

/-- `SequenceMatcher(None, a, b).ratio()` = `2*M / (len a + len b)`
(and 1.0 for two empty strings). -/
def ratio_q (a b : List Char) : ℚ :=
  if a.length + b.length = 0 then 1
  else (2 * matchTotal a b : ℕ) / ((a.length + b.length : ℕ) : ℚ)

/-- The normalized title of a task. -/
def nt (t : Task) : List Char := normTitle t.title

/-- One kept-task test of the dedup inner loop, on normalized titles:
exact equality, or similarity ratio ≥ 0.80. -/
def matchNorm (x y : List Char) : Bool :=
  x == y || decide ((4 : ℚ)/5 ≤ ratio_q x y)

/-- The dedup inner-loop test on tasks (incoming first, kept second). -/
def matchesB (t u : Task) : Bool := matchNorm (nt t) (nt u)

/-- Exact-title test of the dedup loop (incoming first, kept second). -/
def exactB (t u : Task) : Bool := nt t == nt u

/-- Fuzzy-similarity test of the dedup loop (incoming first, kept second). -/
def fuzzyB (t u : Task) : Bool := decide ((4 : ℚ)/5 ≤ ratio_q (nt t) (nt u))

/-- `_merge_duplicate`: union the duplicate's `source_systems` into the
existing task's (skipping values already present), and, when the duplicate's
metadata dict is truthy, append a `(title, sources, metadata)` record to the
existing task's `merged_from` list (creating it if absent).  All other fields
of `existing` are kept. -/
def merge_duplicate (existing duplicate : Task) : Task :=
  let ss := duplicate.source_systems.foldl
    (fun acc s => if s ∈ acc then acc else acc ++ [s]) existing.source_systems
  let md :=
    if duplicate.metadata.isEmpty then existing.metadata
    else
      match existing.metadata with
      | .mk r mf o =>
        Metadata.mk r
          (some ((mf.getD []) ++
            [(duplicate.title, duplicate.source_systems, duplicate.metadata)]))
          o
  { existing with source_systems := ss, metadata := md }

/-- The dedup inner loop over the kept list: merge the incoming task `t` into
the first kept task accepted by `p` (returning the updated kept list), or
report `none` when no kept task matches. -/
def scanMerge (p : Task → Task → Bool) : List Task → Task → Option (List Task)
  | [], _ => none
  | u :: rest, t =>
    if p t u then some (merge_duplicate u t :: rest)
    else
      match scanMerge p rest t with
      | some r => some (u :: r)
      | none => none

/-- The dedup outer loop: fold the incoming tasks over the kept list. -/
def dedupTasksAux (kept : List Task) : List Task → List Task
  | [] => kept
  | t :: rest =>
    match scanMerge matchesB kept t with
    | some k2 => dedupTasksAux k2 rest
    | none => dedupTasksAux (kept ++ [t]) rest

/-- `deduplicate_tasks`: scan tasks in input order, merging each into the
first kept task whose normalized title matches exactly or with
similarity ≥ 0.80, else appending it. -/
def deduplicate_tasks (ts : List Task) : List Task :=
  dedupTasksAux [] ts

/-- Modelled from the claim's wording (for comparison with the code): merge
the incoming task into the first kept task with an exactly equal normalized
title or, failing that — no exact match anywhere in the kept list — into the
first kept task with similarity ratio ≥ 0.80. -/
def dedupClaimScan (kept : List Task) (t : Task) : Option (List Task) :=
  match scanMerge exactB kept t with
  | some r => some r
  | none => scanMerge fuzzyB kept t

/-- Outer loop of the claim-side deduplicator. -/
def dedupClaimAux (kept : List Task) : List Task → List Task
  | [] => kept
  | t :: rest =>
    match dedupClaimScan kept t with
    | some k2 => dedupClaimAux k2 rest
    | none => dedupClaimAux (kept ++ [t]) rest

/-- The claim-side deduplicator: exact matches take priority over fuzzy
matches across the whole kept list. -/
def dedupClaim (ts : List Task) : List Task :=
  dedupClaimAux [] ts

/-- The `attention_tax` section of the configuration. -/
structure AttentionTaxConfig where
  priority_base : List (String × ℚ)
  energy_multiplier : List (String × ℚ)
  deadline_multiplier_has : ℚ
  deadline_multiplier_no : ℚ

/-- Python `dict.get(key, default)` on a string-keyed table of rationals. -/
def dictGetQ (d : List (String × ℚ)) (k : String) (dflt : ℚ) : ℚ :=
  match d.find? (fun p => p.1 == k) with
  | some p => p.2
  | none => dflt

/-- `calculate_attention_tax`: priority base (default 2) × energy multiplier
(default 1.0) × deadline multiplier (chosen by presence of a due date). -/
def calculate_attention_tax (cfg : AttentionTaxConfig) (t : Task) : ℚ :=
  let priority_score := dictGetQ cfg.priority_base t.priority 2
  let energy_mult := dictGetQ cfg.energy_multiplier t.energy 1
  let deadline_mult :=
    if t.due_date.isSome then cfg.deadline_multiplier_has
    else cfg.deadline_multiplier_no
  priority_score * energy_mult * deadline_mult

/-- Modelled from the spec's wording of the Scorer contract:
`score(task) = priority_base[task.priority] × energy_multiplier[task.energy]
× deadline_multiplier[has_due_date]`, with a missing priority falling back to
a default base value (2) and a missing energy level to multiplier 1.0. -/
def score_spec (cfg : AttentionTaxConfig) (t : Task) : ℚ :=
  (match cfg.priority_base.find? (fun p => p.1 == t.priority) with
   | some p => p.2
   | none => 2) *
  (match cfg.energy_multiplier.find? (fun p => p.1 == t.energy) with
   | some p => p.2
   | none => 1) *
  (match t.due_date with
   | some _ => cfg.deadline_multiplier_has
   | none => cfg.deadline_multiplier_no)

/-- The `critical_tasks` section of the configuration. -/
structure CriticalConfig where
  due_within_days : Int
  p1_with_deadline_critical : Bool
  urgent_keywords : List String
  critical_tags : List String

/-- `(due_date - now).days`: floor division of the signed difference in
seconds by 86400, as Python's `timedelta.days` normalizes. -/
def daysUntil (now d : Int) : Int := Int.fdiv (d - now) 86400

/-- The criticality test of `_identify_critical_tasks`: due within the
configured threshold, or P1-with-deadline (when enabled), or an urgent
keyword in the lowercased title, or a configured `#tag` in the raw line. -/
def isCriticalB (cfg : CriticalConfig) (now : Int) (t : Task) : Bool :=
  let byDue :=
    match t.due_date with
    | some d => decide (daysUntil now d ≤ cfg.due_within_days)
    | none => false
  let byP1 :=
    cfg.p1_with_deadline_critical && t.priority == "P1" && t.due_date.isSome
  let title_lower := t.title.data.map Char.toLower
  let byKeyword := cfg.urgent_keywords.any (fun kw => containsSub title_lower kw.data)
  let byTag :=
    match t.metadata.raw_line with
    | some rl => cfg.critical_tags.any (fun tag => containsSub rl.data ('#' :: tag.data))
    | none => false
  byDue || byP1 || byKeyword || byTag

/-- Insert a task into a sorted list, before the first element it is `le` to
(keeping it after earlier-inserted equal elements, as a stable sort does). -/
def insertLe (le : Task → Task → Bool) (x : Task) : List Task → List Task
  | [] => [x]
  | y :: ys => if le x y then x :: y :: ys else y :: insertLe le x ys

/-- Stable sort by a boolean total preorder.  Python's `list.sort(key=...)` is
a stable sort; any stable sort by the same total preorder produces the same
list, so a stable insertion sort models it exactly. -/
def sortBy (le : Task → Task → Bool) : List Task → List Task
  | [] => []
  | x :: xs => insertLe le x (sortBy le xs)

/-- `datetime.max` as epoch seconds (year 9999), the sort key substituted for
a missing due date. -/
def datetimeMax : Int := 253402300799

/-- The due-date sort key: the due date, or `datetime.max` when absent. -/
def dueKey (t : Task) : Int :=
  match t.due_date with
  | some d => d
  | none => datetimeMax

/-- The sort order of `_identify_critical_tasks`: ascending on
`(dueKey, -attention_tax)`. -/
def critLe (t u : Task) : Bool :=
  decide (dueKey t < dueKey u) ||
    (decide (dueKey t = dueKey u) && decide (u.attention_tax ≤ t.attention_tax))

/-- `_identify_critical_tasks`: keep the critical tasks in input order, then
stable-sort ascending by due date (missing dates last) with ties broken by
descending attention tax. -/
def identify_critical_tasks (cfg : CriticalConfig) (now : Int) (ts : List Task) :
    List Task :=
  sortBy critLe (ts.filter (fun t => isCriticalB cfg now t))

/-- The hard-coded energy level table of `_filter_by_capacity`. -/
def energy_levels : List (String × Nat) := [("low", 0), ("medium", 1), ("high", 2)]

/-- The hard-coded attention level table of `_filter_by_capacity`. -/
def attention_levels : List (String × Nat) := [("low", 0), ("medium", 1), ("high", 2)]

/-- Python `d[k]` on a string-keyed level table: `none` models `KeyError`. -/
def dictFindN (d : List (String × Nat)) (k : String) : Option Nat :=
  (d.find? (fun p => p.1 == k)).map (fun p => p.2)

/-- The loop of `_filter_by_capacity`: keep tasks whose energy and attention
levels are both at or below capacity; a level value outside the table raises
(modelled as `none`). -/
def filterCapAux (ce ca : Nat) : List Task → Option (List Task)
  | [] => some []
  | t :: rest =>
    match dictFindN energy_levels t.energy with
    | none => none
    | some te =>
      match dictFindN attention_levels t.attention with
      | none => none
      | some ta =>
        match filterCapAux ce ca rest with
        | none => none
        | some m => some (if te ≤ ce && ta ≤ ca then t :: m else m)

/-- `_filter_by_capacity`. -/
def filter_by_capacity (ts : List Task) (cap : Capacity) : Option (List Task) :=
  match dictFindN energy_levels cap.energy with
  | none => none
  | some ce =>
    match dictFindN attention_levels cap.attention with
    | none => none
    | some ca => filterCapAux ce ca ts

/-- A string inside the closed level enumeration. -/
def validLevel (s : String) : Prop := s = "low" ∨ s = "medium" ∨ s = "high"

instance (s : String) : Decidable (validLevel s) := by
  unfold validLevel
  infer_instance

/-- The ordinal level of an enumeration value (0 for strings outside it). -/
def lvl (s : String) : Nat := (dictFindN energy_levels s).getD 0

/-- Ascending attention-tax order used for the recommendation sorts. -/
def taxLe (t u : Task) : Bool := decide (t.attention_tax ≤ u.attention_tax)

/-- The backfill loop of `recommend_next_actions`: append tasks not already
selected until `min_tasks` is reached or the source is exhausted. -/
def fillLoop (minT : Nat) : List Task → List Task → List Task
  | recs, [] => recs
  | recs, t :: rest =>
    if t ∈ recs then fillLoop minT recs rest
    else
      let recs2 := recs ++ [t]
      if minT ≤ recs2.length then recs2 else fillLoop minT recs2 rest

/-- The backlog filter of `recommend_next_actions`: a task stays active when
its raw source line does not contain `#backlog`. -/
def backlogActive (t : Task) : Bool :=
  !(containsSub ((t.metadata.raw_line).getD "").data "#backlog".data)

/-- Stages 2–4 of the recommender: deduplicate the aggregated tasks, drop
backlog-tagged ones, and compute every task's attention tax. -/
def pipelineTasks (tcfg : AttentionTaxConfig) (aggregated : List Task) : List Task :=
  ((deduplicate_tasks aggregated).filter backlogActive).map
    (fun t => { t with attention_tax := calculate_attention_tax tcfg t })

/-- The critical list of a recommendation run. -/
def criticalOf (tcfg : AttentionTaxConfig) (ccfg : CriticalConfig) (now : Int)
    (aggregated : List Task) : List Task :=
  identify_critical_tasks ccfg now (pipelineTasks tcfg aggregated)

/-- The non-critical complement (`t not in critical_tasks`, by value). -/
def nonCriticalOf (tcfg : AttentionTaxConfig) (ccfg : CriticalConfig) (now : Int)
    (aggregated : List Task) : List Task :=
  (pipelineTasks tcfg aggregated).filter
    (fun t => decide (t ∉ criticalOf tcfg ccfg now aggregated))

/-- The result of `recommend_next_actions`. -/
structure RecommendResult where
  critical : List Task
  recommended : List Task
deriving DecidableEq

/-- `recommend_next_actions`, given the aggregated task list and a resolved
capacity: deduplicate, drop backlog tasks, score, classify critical tasks,
capacity-filter the rest, sort ascending by tax, truncate to `max_tasks`, and
backfill from the whole non-critical pool up to `min_tasks`.  `none` models
the `KeyError` escaping from `_filter_by_capacity`. -/
def recommend_next_actions (tcfg : AttentionTaxConfig) (ccfg : CriticalConfig)
    (minT maxT : Nat) (now : Int) (cap : Capacity) (aggregated : List Task) :
    Option RecommendResult :=
  let crit := criticalOf tcfg ccfg now aggregated
  let nonCrit := nonCriticalOf tcfg ccfg now aggregated
  match filter_by_capacity nonCrit cap with
  | none => none
  | some matched =>
    let recs := (sortBy taxLe matched).take maxT
    let recs2 :=
      if recs.length < minT then fillLoop minT recs (sortBy taxLe nonCrit)
      else recs
    some ⟨crit, recs2⟩

/-- The invariant of the deduplicator's kept list: no task matches (exactly or
fuzzily) any task kept before it.  `matchesB later earlier` is the very test
the inner loop would have run when the later task arrived. -/
def KeptInv (l : List Task) : Prop :=
  l.Pairwise (fun u v => matchesB v u = false)

/-- The spec's criticality condition, written as a four-way disjunction: due
within the threshold (signed), or P1 with a deadline under the flag, or an
urgent keyword in the case-folded title, or a configured `#tag` substring in
the raw source line. -/
def criticalSpec (cfg : CriticalConfig) (now : Int) (t : Task) : Prop :=
  (∃ d, t.due_date = some d ∧ daysUntil now d ≤ cfg.due_within_days) ∨
  (cfg.p1_with_deadline_critical = true ∧ t.priority = "P1" ∧
    t.due_date.isSome = true) ∨
  (∃ kw ∈ cfg.urgent_keywords,
    containsSub (t.title.data.map Char.toLower) kw.data = true) ∨
  (∃ rl, t.metadata.raw_line = some rl ∧
    ∃ tag ∈ cfg.critical_tags, containsSub rl.data ('#' :: tag.data) = true)

/-- The collaborators `mark_complete` talks to: the aggregated task list, the
Todoist integration (when enabled) keyed by task id, and the Obsidian
integration keyed by title. -/
structure Env where
  tasks : List Task
  todoist_enabled : Bool
  todoist_ok : String → Bool
  obsidian_ok : String → Bool

/-- Per-system outcome inside the `mark_complete` loop: `some true` counts a
success, `some false` a failure, `none` an unknown system name (logged and
otherwise ignored). -/
def sysSucc (env : Env) (t : Task) (task_id s : String) : Option Bool :=
  if s = "todoist" then some (env.todoist_enabled && env.todoist_ok task_id)
  else if s = "obsidian" then some (env.obsidian_ok t.title)
  else if s = "daily_note" then some true
  else none

/-- `mark_complete`: find the task by id (first match), resolve the target
systems (defaulting to the task's `source_systems`), count successes over the
named systems, and report success when all named systems succeeded or at
least one did. -/
def mark_complete (env : Env) (task_id : String) (systems : Option (List String)) :
    Bool :=
  match env.tasks.find? (fun t => t.id == task_id) with
  | none => false
  | some t =>
    let sys := systems.getD t.source_systems
    let total := sys.length
    let succ := sys.foldl
      (fun n s =>
        match sysSucc env t task_id s with
        | some true => n + 1
        | _ => n) 0
    if succ = total then true else if 0 < succ then true else false

/-! Concrete inputs used by the individual claims. -/

/-- C1: a task whose title fuzzily matches `c1TaskB`'s at ratio exactly 0.80. -/
def c1TaskA : Task :=
  { id := "c1a", title := "abcde", priority := "P3", energy := "medium",
    attention := "medium", due_date := none, source_systems := ["todoist"] }

/-- C1: the incoming task for the ratio-0.80 boundary. -/
def c1TaskB : Task :=
  { id := "c1b", title := "abcdX", priority := "P2", energy := "low",
    attention := "low", due_date := none, source_systems := ["obsidian"] }

/-- C1: first of a pair of titles calibrated to similarity ratio exactly 0.79
(79 matched characters, combined length 200; checked against CPython). -/
def c1s79a : String :=
  "abcdefghijklmnopqrstuvwxyz0123456789#$%&()*+,-./:;<=>@[]^_|~abcdefghijklmnopqrs!!!!!!!!!!!!!!!!!!!!!"

/-- C1: second title of the ratio-0.79 pair. -/
def c1s79b : String :=
  "abcdefghijklmnopqrstuvwxyz0123456789#$%&()*+,-./:;<=>@[]^_|~abcdefghijklmnopqrs?????????????????????"

/-- C1: kept task carrying the first 0.79-calibrated title. -/
def c1TaskC : Task :=
  { id := "c1c", title := c1s79a, priority := "P3", energy := "medium",
    attention := "medium", due_date := none, source_systems := ["todoist"] }

/-- C1: incoming task carrying the second 0.79-calibrated title. -/
def c1TaskD : Task :=
  { id := "c1d", title := c1s79b, priority := "P3", energy := "medium",
    attention := "medium", due_date := none, source_systems := ["obsidian"] }

/-- C2: an existing task with empty metadata. -/
def c2Existing : Task :=
  { id := "c2e", title := "Pay rent", priority := "P2", energy := "low",
    attention := "low", due_date := none, source_systems := ["todoist"] }

/-- C2: a duplicate (same normalized title) whose metadata dict is empty. -/
def c2Dup : Task :=
  { id := "c2d", title := "pay rent", priority := "P4", energy := "high",
    attention := "high", due_date := some 86400, source_systems := ["obsidian"] }

/-- C2: a duplicate whose metadata dict is non-empty. -/
def c2DupM : Task :=
  { id := "c2m", title := "pay rent ", priority := "P4", energy := "high",
    attention := "high", due_date := some 86400,
    source_systems := ["obsidian", "todoist"],
    metadata := Metadata.mk (some "- [ ] pay rent #P4") none [] }

/-- C3: a capacity of low energy and medium attention. -/
def c3Cap : Capacity := { energy := "low", attention := "medium" }

/-- C3: a low/low task (passes the filter at `c3Cap`). -/
def c3Task1 : Task :=
  { id := "c3a", title := "Water plants", priority := "P4", energy := "low",
    attention := "low", due_date := none, source_systems := ["obsidian"] }

/-- C3: a high-energy task with matching attention (excluded at `c3Cap`). -/
def c3Task2 : Task :=
  { id := "c3b", title := "Deep work block", priority := "P2", energy := "high",
    attention := "medium", due_date := none, source_systems := ["obsidian"] }

/-- C4: the example configuration of the claim (P1 base 5, high ×2.0,
deadline ×1.5). -/
def c4Cfg : AttentionTaxConfig :=
  { priority_base := [("P1", 5), ("P2", 4), ("P3", 3), ("P4", 1)],
    energy_multiplier := [("high", 2), ("medium", 3/2), ("low", 1)],
    deadline_multiplier_has := 3/2, deadline_multiplier_no := 1 }

/-- C4: a P1, high-energy task with a due date (scores 15.0). -/
def c4Task : Task :=
  { id := "c4", title := "Ship release", priority := "P1", energy := "high",
    attention := "high", due_date := some 86400, source_systems := ["todoist"] }

/-- C5: a critical-classifier configuration with threshold 2 days and the
keyword list containing `urgent`. -/
def c5Cfg : CriticalConfig :=
  { due_within_days := 2, p1_with_deadline_critical := true,
    urgent_keywords := ["urgent", "asap", "critical", "blocker", "blocking"],
    critical_tags := ["urgency/high", "importance/high"] }

/-- C5: a P3 task due in 5 days whose title contains `urgent`. -/
def c5Task : Task :=
  { id := "c5", title := "Fix urgent bug", priority := "P3", energy := "medium",
    attention := "medium", due_date := some (5 * 86400),
    source_systems := ["obsidian"] }

/-- C6: classifier configuration for the ordering scenario. -/
def c6Cfg : CriticalConfig :=
  { due_within_days := 2, p1_with_deadline_critical := true,
    urgent_keywords := [], critical_tags := [] }

/-- C6: critical task due in 1 day with attention tax 10.0. -/
def c6Tax10 : Task :=
  { id := "c6a", title := "Renew passport", priority := "P2", energy := "medium",
    attention := "medium", due_date := some 86400, source_systems := ["todoist"],
    attention_tax := 10 }

/-- C6: critical task due the same day with attention tax 20.0. -/
def c6Tax20 : Task :=
  { id := "c6b", title := "File tax forms", priority := "P2", energy := "medium",
    attention := "medium", due_date := some 86400, source_systems := ["todoist"],
    attention_tax := 20 }

/-- C7: scorer configuration for the backfill scenario. -/
def c7TaxCfg : AttentionTaxConfig :=
  { priority_base := [("P3", 3), ("P4", 1)], energy_multiplier := [],
    deadline_multiplier_has := 3/2, deadline_multiplier_no := 1 }

/-- C7: classifier configuration under which nothing is critical. -/
def c7CritCfg : CriticalConfig :=
  { due_within_days := 2, p1_with_deadline_critical := true,
    urgent_keywords := [], critical_tags := [] }

/-- C7: a medium/medium task (capacity-mismatched at low/low). -/
def c7Task1 : Task :=
  { id := "c7a", title := "alpha", priority := "P3", energy := "medium",
    attention := "medium", due_date := none, source_systems := ["todoist"] }

/-- C7: a high/high task (capacity-mismatched at low/low). -/
def c7Task2 : Task :=
  { id := "c7b", title := "zzz999", priority := "P4", energy := "high",
    attention := "high", due_date := none, source_systems := ["obsidian"] }

/-- C8: the aggregated task `mark_complete` is asked about. -/
def c8Task : Task :=
  { id := "t1", title := "Call dentist", priority := "P3", energy := "low",
    attention := "low", due_date := none, source_systems := ["obsidian"] }

/-- C8: an environment whose integrations all fail. -/
def c8Env : Env :=
  { tasks := [c8Task], todoist_enabled := false,
    todoist_ok := fun _ => false, obsidian_ok := fun _ => false }

/-- C9: scorer configuration for the out-of-enumeration scenario. -/
def c9TaxCfg : AttentionTaxConfig :=
  { priority_base := [("P1", 5)], energy_multiplier := [("high", 2)],
    deadline_multiplier_has := 3/2, deadline_multiplier_no := 1 }

/-- C9: classifier configuration under which nothing is critical. -/
def c9CritCfg : CriticalConfig :=
  { due_within_days := 2, p1_with_deadline_critical := true,
    urgent_keywords := [], critical_tags := [] }

/-- C9: a task whose priority and energy lie outside the closed enumerations. -/
def c9BadTask : Task :=
  { id := "c9", title := "Mystery chore", priority := "P5", energy := "extreme",
    attention := "medium", due_date := none, source_systems := ["todoist"] }

/-- C9: an ordinary medium/medium capacity. -/
def c9Cap : Capacity := { energy := "medium", attention := "medium" }

/-! Helper lemmas about the deduplicator. -/

theorem merge_duplicate_title (e d : Task) : (merge_duplicate e d).title = e.title := rfl

theorem nt_merge_duplicate (e d : Task) : nt (merge_duplicate e d) = nt e := rfl

theorem scanMerge_of_no_match (p : Task → Task → Bool) (t : Task) (kept : List Task)
    (h : ∀ u ∈ kept, p t u = false) : scanMerge p kept t = none := by
  induction kept with
  | nil => rfl
  | cons u rest ih =>
    have hu : p t u = false := h u (List.mem_cons_self u rest)
    have hrest := ih (fun v hv => h v (List.mem_cons_of_mem u hv))
    simp [scanMerge, hu, hrest]

theorem no_match_of_scanMerge_none (p : Task → Task → Bool) (t : Task)
    (kept : List Task) (h : scanMerge p kept t = none) :
    ∀ u ∈ kept, p t u = false := by
  induction kept with
  | nil => intro u hu; cases hu
  | cons u rest ih =>
    intro v hv
    by_cases hu : p t u = true
    · simp [scanMerge, hu] at h
    · rw [Bool.not_eq_true] at hu
      simp only [scanMerge, hu, Bool.false_eq_true, if_false] at h
      rcases hr : scanMerge p rest t with _ | r
      · rcases List.mem_cons.mp hv with rfl | hv'
        · exact hu
        · exact ih hr v hv'
      · rw [hr] at h; cases h

theorem scanMerge_some_match (p : Task → Task → Bool) (t : Task)
    (kept : List Task) (r : List Task) (h : scanMerge p kept t = some r) :
    ∃ u ∈ kept, p t u = true := by
  induction kept generalizing r with
  | nil => cases h
  | cons u rest ih =>
    by_cases hu : p t u = true
    · exact ⟨u, List.mem_cons_self u rest, hu⟩
    · rw [Bool.not_eq_true] at hu
      simp only [scanMerge, hu, Bool.false_eq_true, if_false] at h
      rcases hr : scanMerge p rest t with _ | r2
      · rw [hr] at h; cases h
      · rcases ih r2 hr with ⟨v, hv, hpv⟩
        exact ⟨v, List.mem_cons_of_mem u hv, hpv⟩

theorem scanMerge_map_nt (p : Task → Task → Bool) (t : Task)
    (kept : List Task) (r : List Task) (h : scanMerge p kept t = some r) :
    r.map nt = kept.map nt := by
  induction kept generalizing r with
  | nil => cases h
  | cons u rest ih =>
    by_cases hu : p t u = true
    · simp only [scanMerge, hu, if_true] at h
      injection h with h
      subst h
      simp [nt_merge_duplicate]
    · rw [Bool.not_eq_true] at hu
      simp only [scanMerge, hu, Bool.false_eq_true, if_false] at h
      rcases hr : scanMerge p rest t with _ | r2
      · rw [hr] at h; cases h
      · rw [hr] at h
        injection h with h
        subst h
        simp [ih r2 hr]

theorem matchesB_of_exact (t u : Task) (h : exactB t u = true) :
    matchesB t u = true := by
  unfold exactB at h
  unfold matchesB matchNorm
  simp [h]

theorem matchesB_of_fuzzy (t u : Task) (h : fuzzyB t u = true) :
    matchesB t u = true := by
  unfold fuzzyB at h
  unfold matchesB matchNorm
  simp [h]

theorem matchesB_false_parts (t u : Task) (hex : exactB t u = false)
    (hfz : fuzzyB t u = false) : matchesB t u = false := by
  unfold exactB at hex
  unfold fuzzyB at hfz
  unfold matchesB matchNorm
  simp [hex, hfz]

theorem matchesB_congr_nt (t v u : Task) (h : nt t = nt v) :
    matchesB t u = matchesB v u := by
  unfold matchesB
  rw [h]

/-- Under the kept-list invariant, the code's single first-match scan agrees
with the claim's exact-first-then-fuzzy scan. -/
theorem scanMerge_eq_claim (t : Task) (kept : List Task) (hinv : KeptInv kept) :
    scanMerge matchesB kept t = dedupClaimScan kept t := by
  induction kept with
  | nil => rfl
  | cons u rest ih =>
    have hinvRest : KeptInv rest := (List.pairwise_cons.mp hinv).2
    have hheadRel : ∀ v ∈ rest, matchesB v u = false := (List.pairwise_cons.mp hinv).1
    by_cases hex : exactB t u = true
    · have hm : matchesB t u = true := matchesB_of_exact t u hex
      unfold dedupClaimScan
      simp [scanMerge, hm, hex]
    · rw [Bool.not_eq_true] at hex
      by_cases hfz : fuzzyB t u = true
      · have hm : matchesB t u = true := matchesB_of_fuzzy t u hfz
        have hnoexRest : ∀ v ∈ rest, exactB t v = false := by
          intro v hv
          by_contra hne
          rw [Bool.not_eq_false] at hne
          have hnt : nt t = nt v := by
            unfold exactB at hne
            exact eq_of_beq hne
          have hvu : matchesB v u = true := by
            rw [← matchesB_congr_nt t v u hnt]
            exact hm
          rw [hheadRel v hv] at hvu
          cases hvu
        have hexNone : scanMerge exactB (u :: rest) t = none := by
          apply scanMerge_of_no_match
          intro v hv
          rcases List.mem_cons.mp hv with rfl | hv'
          · exact hex
          · exact hnoexRest v hv'
        unfold dedupClaimScan
        rw [hexNone]
        simp [scanMerge, hm, hfz]
      · rw [Bool.not_eq_true] at hfz
        have hm : matchesB t u = false := matchesB_false_parts t u hex hfz
        have hrec := ih hinvRest
        unfold dedupClaimScan at hrec ⊢
        simp only [scanMerge, hm, hex, hfz, Bool.false_eq_true, if_false]
        rcases hre : scanMerge exactB rest t with _ | re
        · rw [hre] at hrec
          rw [hrec]
        · rw [hre] at hrec
          rw [hrec]

theorem KeptInv_append (kept : List Task) (t : Task) (hinv : KeptInv kept)
    (h : ∀ u ∈ kept, matchesB t u = false) : KeptInv (kept ++ [t]) := by
  unfold KeptInv at hinv ⊢
  rw [List.pairwise_append]
  refine ⟨hinv, List.pairwise_singleton _ _, ?_⟩
  intro a ha b hb
  rw [List.mem_singleton] at hb
  subst hb
  exact h a ha

theorem KeptInv_of_map_nt_eq (l1 l2 : List Task) (hmap : l2.map nt = l1.map nt)
    (hinv : KeptInv l1) : KeptInv l2 := by
  unfold KeptInv at hinv ⊢
  have h1 : (l1.map nt).Pairwise (fun x y => matchNorm y x = false) := by
    rw [List.pairwise_map]
    exact hinv
  rw [← hmap] at h1
  rw [List.pairwise_map] at h1
  exact h1

theorem KeptInv_dedupAux (l : List Task) : ∀ kept : List Task,
    KeptInv kept → KeptInv (dedupTasksAux kept l) := by
  induction l with
  | nil => intro kept h; exact h
  | cons t rest ih =>
    intro kept h
    rcases hs : scanMerge matchesB kept t with _ | k2
    · simp only [dedupTasksAux, hs]
      exact ih _ (KeptInv_append kept t h (no_match_of_scanMerge_none _ _ _ hs))
    · simp only [dedupTasksAux, hs]
      exact ih _ (KeptInv_of_map_nt_eq kept k2 (scanMerge_map_nt _ _ _ _ hs) h)

theorem dedupAux_fixed (l : List Task) : ∀ kept : List Task,
    KeptInv (kept ++ l) → dedupTasksAux kept l = kept ++ l := by
  induction l with
  | nil => intro kept _; simp [dedupTasksAux]
  | cons t rest ih =>
    intro kept h
    have hmatch : ∀ u ∈ kept, matchesB t u = false := by
      unfold KeptInv at h
      rw [List.pairwise_append] at h
      intro u hu
      exact h.2.2 u hu t (List.mem_cons_self _ _)
    have hs : scanMerge matchesB kept t = none := scanMerge_of_no_match _ _ _ hmatch
    simp only [dedupTasksAux, hs]
    have hl : kept ++ t :: rest = (kept ++ [t]) ++ rest := by simp
    rw [hl] at h
    rw [ih (kept ++ [t]) h]
    simp

theorem dedupAux_eq_claim (l : List Task) : ∀ kept : List Task, KeptInv kept →
    dedupTasksAux kept l = dedupClaimAux kept l := by
  induction l with
  | nil => intro kept _; rfl
  | cons t rest ih =>
    intro kept h
    have hs := scanMerge_eq_claim t kept h
    simp only [dedupTasksAux, dedupClaimAux, hs]
    rcases hc : dedupClaimScan kept t with _ | k2
    · exact ih _ (KeptInv_append kept t h
        (no_match_of_scanMerge_none _ _ _ (hs.trans hc)))
    · exact ih _ (KeptInv_of_map_nt_eq kept k2
        (scanMerge_map_nt _ _ _ _ (hs.trans hc)) h)

/-- C10: deduplication is idempotent — for every task list `ts`,
`deduplicate_tasks (deduplicate_tasks ts) = deduplicate_tasks ts`; applying
deduplication to an already-deduplicated list performs no further merges and
returns the same list. -/
theorem c10_dedup_idempotent (ts : List Task) :
    deduplicate_tasks (deduplicate_tasks ts) = deduplicate_tasks ts := by
  have hinv : KeptInv (deduplicate_tasks ts) :=
    KeptInv_dedupAux ts [] List.Pairwise.nil
  unfold deduplicate_tasks
  rw [dedupAux_fixed _ [] (by simpa using hinv)]
  rfl

/-- C1: deduplication processes tasks in input order against the kept list in
kept-list order; each incoming task merges into the first kept task with an
exactly equal normalized title or, failing that, into the first kept task with
similarity ratio ≥ 0.80, and is appended unchanged when no kept task matches
(`deduplicate_tasks` equals the claim-side `dedupClaim` on every input).  At
the threshold: a pair of titles with ratio exactly 0.80 merges, and a pair
with ratio exactly 0.79 does not. -/
theorem c1_dedup_matching_policy :
    (∀ ts, deduplicate_tasks ts = dedupClaim ts) ∧
    (ratio_q (nt c1TaskB) (nt c1TaskA) = 4/5 ∧
      deduplicate_tasks [c1TaskA, c1TaskB] = [merge_duplicate c1TaskA c1TaskB]) ∧
    (ratio_q (nt c1TaskD) (nt c1TaskC) = 79/100 ∧
      deduplicate_tasks [c1TaskC, c1TaskD] = [c1TaskC, c1TaskD]) := by
  refine ⟨fun ts => dedupAux_eq_claim ts [] List.Pairwise.nil, ⟨?_, ?_⟩, ⟨?_, ?_⟩⟩
  · with_unfolding_all decide
  · with_unfolding_all decide
  · with_unfolding_all decide
  · with_unfolding_all decide

/-! Helper lemmas about the source-system union fold of `_merge_duplicate`. -/

theorem unionFold_mem (xs : List String) : ∀ (init : List String) (s : String),
    s ∈ xs.foldl (fun acc x => if x ∈ acc then acc else acc ++ [x]) init ↔
      s ∈ init ∨ s ∈ xs := by
  induction xs with
  | nil => intro init s; simp
  | cons x xs ih =>
    intro init s
    simp only [List.foldl_cons]
    rw [ih]
    by_cases hx : x ∈ init
    · rw [if_pos hx]
      constructor
      · rintro (h | h)
        · exact Or.inl h
        · exact Or.inr (List.mem_cons_of_mem x h)
      · rintro (h | h)
        · exact Or.inl h
        · rcases List.mem_cons.mp h with rfl | h2
          · exact Or.inl hx
          · exact Or.inr h2
    · rw [if_neg hx]
      simp only [List.mem_append, List.mem_singleton, List.mem_cons]
      tauto

theorem unionFold_sourcesGrow (xs : List String) : ∀ init : List String,
    init <+: xs.foldl (fun acc x => if x ∈ acc then acc else acc ++ [x]) init := by
  induction xs with
  | nil => intro init; exact List.prefix_refl _
  | cons x xs ih =>
    intro init
    simp only [List.foldl_cons]
    by_cases hx : x ∈ init
    · rw [if_pos hx]; exact ih init
    · rw [if_neg hx]
      exact List.IsPrefix.trans (List.prefix_append init [x]) (ih (init ++ [x]))

theorem unionFold_nodup (xs : List String) : ∀ init : List String, init.Nodup →
    (xs.foldl (fun acc x => if x ∈ acc then acc else acc ++ [x]) init).Nodup := by
  induction xs with
  | nil => intro init h; exact h
  | cons x xs ih =>
    intro init h
    simp only [List.foldl_cons]
    by_cases hx : x ∈ init
    · rw [if_pos hx]; exact ih init h
    · rw [if_neg hx]
      refine ih _ ?_
      simp [List.nodup_append, h, hx]

/-- C2 (amended): when the deduplicator merges a duplicate into a kept task,
the duplicate's `source_systems` are unioned into the kept task's (skipping
values already present, so the list only grows and stays duplicate-free), and
— when the duplicate's metadata dict is non-empty — a `(title, sources,
metadata)` entry describing the duplicate is appended onto the kept task's
`merged_from` list (created if absent); with empty duplicate metadata the
kept task's metadata is left entirely unchanged.  All other fields — id,
title, priority, energy, attention, due date, attention tax — keep the
first-seen task's values. -/
theorem c2_merge_semantics (e d : Task) :
    ((merge_duplicate e d).id = e.id ∧ (merge_duplicate e d).title = e.title ∧
      (merge_duplicate e d).priority = e.priority ∧
      (merge_duplicate e d).energy = e.energy ∧
      (merge_duplicate e d).attention = e.attention ∧
      (merge_duplicate e d).due_date = e.due_date ∧
      (merge_duplicate e d).attention_tax = e.attention_tax) ∧
    (∀ s, s ∈ (merge_duplicate e d).source_systems ↔
      s ∈ e.source_systems ∨ s ∈ d.source_systems) ∧
    (e.source_systems <+: (merge_duplicate e d).source_systems) ∧
    (e.source_systems.Nodup → (merge_duplicate e d).source_systems.Nodup) ∧
    (d.metadata.isEmpty = false →
      (merge_duplicate e d).metadata.merged_from =
        some ((e.metadata.merged_from.getD []) ++
          [(d.title, d.source_systems, d.metadata)]) ∧
      (merge_duplicate e d).metadata.raw_line = e.metadata.raw_line ∧
      (merge_duplicate e d).metadata.otherKeys = e.metadata.otherKeys) ∧
    (d.metadata.isEmpty = true → (merge_duplicate e d).metadata = e.metadata) := by
  have hss : (merge_duplicate e d).source_systems =
      d.source_systems.foldl (fun acc s => if s ∈ acc then acc else acc ++ [s])
        e.source_systems := rfl
  refine ⟨⟨rfl, rfl, rfl, rfl, rfl, rfl, rfl⟩, ?_, ?_, ?_, ?_, ?_⟩
  · intro s
    rw [hss]
    exact unionFold_mem d.source_systems e.source_systems s
  · rw [hss]
    exact unionFold_sourcesGrow d.source_systems e.source_systems
  · intro h
    rw [hss]
    exact unionFold_nodup d.source_systems e.source_systems h
  · intro hne
    cases hmd : e.metadata with
    | mk r mf o =>
      have hmm : (merge_duplicate e d).metadata =
          Metadata.mk r
            (some ((mf.getD []) ++ [(d.title, d.source_systems, d.metadata)])) o := by
        show (if d.metadata.isEmpty then e.metadata
              else match e.metadata with
                   | .mk r mf o =>
                     Metadata.mk r
                       (some ((mf.getD []) ++
                         [(d.title, d.source_systems, d.metadata)])) o) = _
        rw [hne, hmd]
        simp
      rw [hmm]
      exact ⟨rfl, rfl, rfl⟩
  · intro hemp
    show (if d.metadata.isEmpty then e.metadata
          else match e.metadata with
               | .mk r mf o =>
                 Metadata.mk r
                   (some ((mf.getD []) ++
                     [(d.title, d.source_systems, d.metadata)])) o) = e.metadata
    rw [hemp]
    simp

/-- C2 counterexample: merging `c2Dup` (empty metadata dict) into
`c2Existing` does happen — the two-task list deduplicates to one task — but
no `merged_from` entry describing the duplicate is recorded, contradicting
the claim's unconditional "an entry … is appended". -/
theorem c2_merge_cex :
    (deduplicate_tasks [c2Existing, c2Dup]).length = 1 ∧
    ¬ ((merge_duplicate c2Existing c2Dup).metadata.merged_from =
        some [(c2Dup.title, c2Dup.source_systems, c2Dup.metadata)]) := by
  constructor
  · with_unfolding_all decide
  · decide

/-- C2 witness: the amended merge semantics evaluated on a duplicate with
non-empty metadata (entry appended) and on one with empty metadata
(metadata untouched). -/
theorem c2_merge_semantics_witness :
    (merge_duplicate c2Existing c2DupM).metadata.merged_from =
      some ((c2Existing.metadata.merged_from.getD []) ++
        [(c2DupM.title, c2DupM.source_systems, c2DupM.metadata)]) ∧
    (merge_duplicate c2Existing c2DupM).source_systems.Nodup ∧
    (merge_duplicate c2Existing c2Dup).metadata = c2Existing.metadata := by
  refine ⟨((c2_merge_semantics c2Existing c2DupM).2.2.2.2.1 (by decide)).1,
    (c2_merge_semantics c2Existing c2DupM).2.2.2.1 (by decide),
    (c2_merge_semantics c2Existing c2Dup).2.2.2.2.2 (by decide)⟩

/-! Helper lemmas about the capacity filter. -/

theorem attention_levels_eq : attention_levels = energy_levels := rfl

theorem dictFindN_valid (s : String) (h : validLevel s) :
    dictFindN energy_levels s = some (lvl s) := by
  rcases h with rfl | rfl | rfl <;> rfl

theorem filterCapAux_valid (ce ca : Nat) (ts : List Task)
    (h : ∀ t ∈ ts, validLevel t.energy ∧ validLevel t.attention) :
    filterCapAux ce ca ts =
      some (ts.filter (fun t =>
        decide (lvl t.energy ≤ ce) && decide (lvl t.attention ≤ ca))) := by
  induction ts with
  | nil => rfl
  | cons t rest ih =>
    obtain ⟨he, ha⟩ := h t (List.mem_cons_self _ _)
    have hrest := ih (fun v hv => h v (List.mem_cons_of_mem _ hv))
    unfold filterCapAux
    rw [dictFindN_valid _ he, attention_levels_eq, dictFindN_valid _ ha, hrest]
    show some (if decide (lvl t.energy ≤ ce) && decide (lvl t.attention ≤ ca)
        then t :: List.filter
          (fun v => decide (lvl v.energy ≤ ce) && decide (lvl v.attention ≤ ca)) rest
        else List.filter
          (fun v => decide (lvl v.energy ≤ ce) && decide (lvl v.attention ≤ ca)) rest) =
      some (List.filter
        (fun v => decide (lvl v.energy ≤ ce) && decide (lvl v.attention ≤ ca)) (t :: rest))
    rw [List.filter_cons]

theorem filterCapAux_mem_le (ce ca : Nat) (ts : List Task) : ∀ r : List Task,
    filterCapAux ce ca ts = some r →
    ∀ x ∈ r, lvl x.energy ≤ ce ∧ lvl x.attention ≤ ca := by
  induction ts with
  | nil =>
    intro r h x hx
    injection h with h
    subst h
    cases hx
  | cons t rest ih =>
    intro r h x hx
    unfold filterCapAux at h
    cases he : dictFindN energy_levels t.energy with
    | none => rw [he] at h; cases h
    | some te =>
      rw [he] at h
      cases ha : dictFindN attention_levels t.attention with
      | none => rw [ha] at h; cases h
      | some ta =>
        rw [ha] at h
        cases hm : filterCapAux ce ca rest with
        | none => rw [hm] at h; cases h
        | some m =>
          rw [hm] at h
          have h2 : (if te ≤ ce && ta ≤ ca then t :: m else m) = r := by
            injection h
          by_cases hc : (te ≤ ce && ta ≤ ca) = true
          · rw [if_pos hc] at h2
            subst h2
            rcases List.mem_cons.mp hx with rfl | hx'
            · have hte : lvl x.energy = te := by
                unfold lvl
                rw [he]
                rfl
              have hta : lvl x.attention = ta := by
                unfold lvl
                rw [attention_levels_eq] at ha
                rw [ha]
                rfl
              rw [hte, hta]
              rw [Bool.and_eq_true, decide_eq_true_eq, decide_eq_true_eq] at hc
              exact hc
            · exact ih m hm x hx'
          · rw [if_neg hc] at h2
            subst h2
            exact ih m hm x hx

/-- C3: for every task list and capacity with values inside the level
enumeration, the capacity filter returns exactly the subset of tasks with
`energy ≤ capacity.energy` and `attention ≤ capacity.attention` under the
ordinal mapping low=0, medium=1, high=2; and a high-energy task is excluded
at low energy capacity regardless of its attention value. -/
theorem c3_filter_by_capacity :
    (∀ (ts : List Task) (cap : Capacity),
      validLevel cap.energy → validLevel cap.attention →
      (∀ t ∈ ts, validLevel t.energy ∧ validLevel t.attention) →
      filter_by_capacity ts cap =
        some (ts.filter (fun t =>
          decide (lvl t.energy ≤ lvl cap.energy) &&
          decide (lvl t.attention ≤ lvl cap.attention)))) ∧
    (∀ (ts : List Task) (cap : Capacity) (t : Task) (r : List Task),
      t.energy = "high" → cap.energy = "low" →
      filter_by_capacity ts cap = some r → t ∉ r) := by
  constructor
  · intro ts cap hce hca hts
    unfold filter_by_capacity
    rw [dictFindN_valid _ hce, attention_levels_eq, dictFindN_valid _ hca]
    exact filterCapAux_valid _ _ ts hts
  · intro ts cap t r hte hce h ht
    unfold filter_by_capacity at h
    rw [hce] at h
    have hce0 : dictFindN energy_levels "low" = some 0 := rfl
    rw [hce0] at h
    cases ha : dictFindN attention_levels cap.attention with
    | none => rw [ha] at h; cases h
    | some ca =>
      rw [ha] at h
      have := (filterCapAux_mem_le 0 ca ts r h t ht).1
      rw [hte] at this
      have h2 : lvl "high" = 2 := rfl
      rw [h2] at this
      omega

/-- C3 witness: at capacity low/medium the filter keeps exactly the low/low
task and drops the high/medium one. -/
theorem c3_filter_by_capacity_witness :
    filter_by_capacity [c3Task1, c3Task2] c3Cap = some [c3Task1] ∧
    c3Task2 ∉ [c3Task1] := by
  constructor
  · have h := c3_filter_by_capacity.1 [c3Task1, c3Task2] c3Cap
      (by decide) (by decide) (by decide)
    rw [h]
    decide
  · have h := c3_filter_by_capacity.2 [c3Task1, c3Task2] c3Cap c3Task2 [c3Task1]
      (by decide) (by decide)
    apply h
    have h1 := c3_filter_by_capacity.1 [c3Task1, c3Task2] c3Cap
      (by decide) (by decide) (by decide)
    rw [h1]
    decide

/-- C4: the attention-tax score is exactly
`priority_base[priority] × energy_multiplier[energy] ×
deadline_multiplier[has/no deadline]` (the code's score equals the spec-side
formula on every input); a missing priority falls back to base 2, a missing
energy level to multiplier 1; and the worked example P1/high/with-deadline
under priority_base.P1=5, energy_multiplier.high=2.0,
deadline_multiplier.has_deadline=1.5 scores exactly 15.0. -/
theorem c4_attention_tax :
    (∀ (cfg : AttentionTaxConfig) (t : Task),
      calculate_attention_tax cfg t = score_spec cfg t) ∧
    (∀ (cfg : AttentionTaxConfig) (t : Task),
      cfg.priority_base.find? (fun p => p.1 == t.priority) = none →
      calculate_attention_tax cfg t =
        2 * dictGetQ cfg.energy_multiplier t.energy 1 *
          (if t.due_date.isSome then cfg.deadline_multiplier_has
           else cfg.deadline_multiplier_no)) ∧
    (∀ (cfg : AttentionTaxConfig) (t : Task),
      cfg.energy_multiplier.find? (fun p => p.1 == t.energy) = none →
      calculate_attention_tax cfg t =
        dictGetQ cfg.priority_base t.priority 2 * 1 *
          (if t.due_date.isSome then cfg.deadline_multiplier_has
           else cfg.deadline_multiplier_no)) ∧
    calculate_attention_tax c4Cfg c4Task = 15 := by
  refine ⟨?_, ?_, ?_, ?_⟩
  · intro cfg t
    unfold calculate_attention_tax score_spec dictGetQ
    cases hd : t.due_date <;> simp [hd]
  · intro cfg t h
    unfold calculate_attention_tax dictGetQ
    rw [h]
  · intro cfg t h
    unfold calculate_attention_tax dictGetQ
    rw [h]
  · with_unfolding_all decide

/-- C4 witness: the fallback equations evaluated at a task with an unknown
priority and at a task with an unknown energy level. -/
theorem c4_attention_tax_witness :
    calculate_attention_tax c4Cfg { c4Task with priority := "P9" } =
      2 * dictGetQ c4Cfg.energy_multiplier "high" 1 *
        c4Cfg.deadline_multiplier_has ∧
    calculate_attention_tax c4Cfg { c4Task with energy := "supersonic" } =
      dictGetQ c4Cfg.priority_base "P1" 2 * 1 *
        c4Cfg.deadline_multiplier_has := by
  constructor
  · exact c4_attention_tax.2.1 c4Cfg { c4Task with priority := "P9" } (by decide)
  · exact c4_attention_tax.2.2.1 c4Cfg { c4Task with energy := "supersonic" }
      (by decide)

/-! Helper lemmas about the stable sort. -/

theorem insertLe_perm (le : Task → Task → Bool) (x : Task) (l : List Task) :
    List.Perm (insertLe le x l) (x :: l) := by
  induction l with
  | nil => exact List.Perm.refl _
  | cons y ys ih =>
    unfold insertLe
    by_cases h : le x y = true
    · rw [if_pos h]
    · rw [if_neg h]
      exact (ih.cons y).trans (List.Perm.swap x y ys)

theorem sortBy_perm (le : Task → Task → Bool) (l : List Task) : List.Perm (sortBy le l) l := by
  induction l with
  | nil => exact List.Perm.refl _
  | cons x xs ih =>
    unfold sortBy
    exact (insertLe_perm le x (sortBy le xs)).trans (ih.cons x)

theorem insertLe_pairwise (le : Task → Task → Bool)
    (htrans : ∀ a b c, le a b = true → le b c = true → le a c = true)
    (htotal : ∀ a b, le a b = true ∨ le b a = true)
    (x : Task) (l : List Task) (h : l.Pairwise (fun a b => le a b = true)) :
    (insertLe le x l).Pairwise (fun a b => le a b = true) := by
  induction l with
  | nil => simp [insertLe]
  | cons y ys ih =>
    rcases List.pairwise_cons.mp h with ⟨hy, hys⟩
    unfold insertLe
    by_cases hxy : le x y = true
    · rw [if_pos hxy]
      refine List.pairwise_cons.mpr ⟨?_, h⟩
      intro b hb
      rcases List.mem_cons.mp hb with rfl | hb'
      · exact hxy
      · exact htrans x y b hxy (hy b hb')
    · rw [if_neg hxy]
      have hyx : le y x = true := by
        rcases htotal x y with h1 | h1
        · exact absurd h1 hxy
        · exact h1
      refine List.pairwise_cons.mpr ⟨?_, ih hys⟩
      intro b hb
      have hbm : b = x ∨ b ∈ ys :=
        List.mem_cons.mp ((insertLe_perm le x ys).mem_iff.mp hb)
      rcases hbm with rfl | hb'
      · exact hyx
      · exact hy b hb'

theorem sortBy_pairwise (le : Task → Task → Bool)
    (htrans : ∀ a b c, le a b = true → le b c = true → le a c = true)
    (htotal : ∀ a b, le a b = true ∨ le b a = true) (l : List Task) :
    (sortBy le l).Pairwise (fun a b => le a b = true) := by
  induction l with
  | nil => exact List.Pairwise.nil
  | cons x xs ih => exact insertLe_pairwise le htrans htotal x _ ih

theorem critLe_trans (a b c : Task) (hab : critLe a b = true)
    (hbc : critLe b c = true) : critLe a c = true := by
  unfold critLe at hab hbc ⊢
  simp only [Bool.or_eq_true, Bool.and_eq_true, decide_eq_true_eq] at hab hbc ⊢
  rcases hab with h1 | ⟨h1, h2⟩ <;> rcases hbc with h3 | ⟨h3, h4⟩
  · left; omega
  · left; omega
  · left; omega
  · right; exact ⟨h1.trans h3, h4.trans h2⟩

theorem critLe_total (a b : Task) : critLe a b = true ∨ critLe b a = true := by
  unfold critLe
  simp only [Bool.or_eq_true, Bool.and_eq_true, decide_eq_true_eq]
  rcases lt_trichotomy (dueKey a) (dueKey b) with h | h | h
  · left; left; exact h
  · rcases le_total b.attention_tax a.attention_tax with h2 | h2
    · left; right; exact ⟨h, h2⟩
    · right; right; exact ⟨h.symm, h2⟩
  · right; left; exact h

theorem critLe_char (t u : Task) : critLe t u = true ↔
    dueKey t < dueKey u ∨
      (dueKey t = dueKey u ∧ u.attention_tax ≤ t.attention_tax) := by
  unfold critLe
  simp [Bool.or_eq_true, Bool.and_eq_true, decide_eq_true_eq]

/-- C5: a task is classified critical iff it satisfies at least one of the
four configured conditions (due date within the signed threshold, P1 with a
deadline under the flag, an urgent keyword in the case-folded title, or a
configured `#tag` in the raw metadata line); membership in the classifier's
output is exactly membership in the input plus criticality; and the concrete
P3 task due in 5 days with threshold 2 and the keyword `urgent` in its title
is critical even though its due date alone would not make it so. -/
theorem c5_critical_condition :
    (∀ (cfg : CriticalConfig) (now : Int) (t : Task),
      isCriticalB cfg now t = true ↔ criticalSpec cfg now t) ∧
    (∀ (cfg : CriticalConfig) (now : Int) (ts : List Task) (t : Task),
      t ∈ identify_critical_tasks cfg now ts ↔
        t ∈ ts ∧ isCriticalB cfg now t = true) ∧
    (isCriticalB c5Cfg 0 c5Task = true ∧
      decide (daysUntil 0 (5 * 86400) ≤ c5Cfg.due_within_days) = false) := by
  refine ⟨?_, ?_, ?_, ?_⟩
  · intro cfg now t
    unfold isCriticalB criticalSpec
    cases hd : t.due_date <;> cases hr : t.metadata.raw_line <;>
      simp [hd, hr, List.any_eq_true, Bool.and_eq_true, Bool.or_eq_true,
        beq_iff_eq, or_assoc]
  · intro cfg now ts t
    unfold identify_critical_tasks
    rw [(sortBy_perm critLe _).mem_iff, List.mem_filter]
  · decide
  · decide

/-- C6: the critical classifier's output is sorted ascending by due date with
ties broken by descending attention tax (pairwise along the output); tasks
without a due date come after all tasks whose due date precedes
`datetime.max`; and of two critical tasks due the same day with taxes 10.0
and 20.0, the 20.0-tax one is returned first. -/
theorem c6_critical_ordering :
    (∀ (cfg : CriticalConfig) (now : Int) (ts : List Task),
      (identify_critical_tasks cfg now ts).Pairwise (fun t u =>
        dueKey t < dueKey u ∨
          (dueKey t = dueKey u ∧ u.attention_tax ≤ t.attention_tax))) ∧
    (∀ (cfg : CriticalConfig) (now : Int) (ts : List Task),
      (∀ v ∈ ts, v.due_date.getD 0 < datetimeMax) →
      (identify_critical_tasks cfg now ts).Pairwise (fun t u =>
        t.due_date = none → u.due_date = none)) ∧
    identify_critical_tasks c6Cfg 0 [c6Tax10, c6Tax20] = [c6Tax20, c6Tax10] := by
  refine ⟨?_, ?_, ?_⟩
  · intro cfg now ts
    have h := sortBy_pairwise critLe critLe_trans critLe_total
      (ts.filter (fun t => isCriticalB cfg now t))
    exact h.imp (fun hab => (critLe_char _ _).mp hab)
  · intro cfg now ts hlt
    have h := sortBy_pairwise critLe critLe_trans critLe_total
      (ts.filter (fun t => isCriticalB cfg now t))
    have hmem : ∀ v ∈ identify_critical_tasks cfg now ts, v ∈ ts := by
      intro v hv
      unfold identify_critical_tasks at hv
      exact (List.mem_filter.mp ((sortBy_perm critLe _).mem_iff.mp hv)).1
    refine List.Pairwise.imp_of_mem ?_ h
    intro t u hmt hmu hle hnone
    have hdt : dueKey t = datetimeMax := by
      unfold dueKey
      rw [hnone]
    cases hdu : u.due_date with
    | none => rfl
    | some d =>
      have hult : d < datetimeMax := by
        have := hlt u (hmem u hmu)
        rw [hdu] at this
        exact this
      have hdku : dueKey u = d := by
        unfold dueKey
        rw [hdu]
      rcases (critLe_char t u).mp hle with h1 | ⟨h1, _⟩
      · rw [hdt, hdku] at h1; omega
      · rw [hdt, hdku] at h1; omega
  · decide

/-- C6 witness: the dated-before-undated guarantee instantiated on the
concrete two-task scenario, whose due dates lie below `datetime.max`. -/
theorem c6_critical_ordering_witness :
    (identify_critical_tasks c6Cfg 0 [c6Tax10, c6Tax20]).Pairwise (fun t u =>
      t.due_date = none → u.due_date = none) :=
  c6_critical_ordering.2.1 c6Cfg 0 [c6Tax10, c6Tax20] (by decide)

/-! Helper lemmas about the capacity filter as a sublist, and the backfill
loop. -/

theorem filterCapAux_sublist (ce ca : Nat) : ∀ (ts r : List Task),
    filterCapAux ce ca ts = some r → r.Sublist ts := by
  intro ts
  induction ts with
  | nil =>
    intro r h
    injection h with h
    subst h
    exact List.nil_sublist _
  | cons t rest ih =>
    intro r h
    unfold filterCapAux at h
    cases he : dictFindN energy_levels t.energy with
    | none => rw [he] at h; cases h
    | some te =>
      rw [he] at h
      cases ha : dictFindN attention_levels t.attention with
      | none => rw [ha] at h; cases h
      | some ta =>
        rw [ha] at h
        cases hm2 : filterCapAux ce ca rest with
        | none => rw [hm2] at h; cases h
        | some m =>
          rw [hm2] at h
          have h2 : (if te ≤ ce && ta ≤ ca then t :: m else m) = r := by
            injection h
          by_cases hc : (te ≤ ce && ta ≤ ca) = true
          · rw [if_pos hc] at h2
            subst h2
            exact List.Sublist.cons₂ t (ih m hm2)
          · rw [if_neg hc] at h2
            subst h2
            exact List.Sublist.cons t (ih m hm2)

theorem filter_by_capacity_sublist (ts r : List Task) (cap : Capacity)
    (h : filter_by_capacity ts cap = some r) : r.Sublist ts := by
  unfold filter_by_capacity at h
  cases he : dictFindN energy_levels cap.energy with
  | none => rw [he] at h; cases h
  | some ce =>
    rw [he] at h
    cases ha : dictFindN attention_levels cap.attention with
    | none => rw [ha] at h; cases h
    | some ca =>
      rw [ha] at h
      exact filterCapAux_sublist ce ca ts r h

/-- The backfill loop reaches exactly `min_tasks` elements whenever the
not-yet-selected part of its (duplicate-free) source can cover the
shortfall. -/
theorem fillLoop_reaches (minT : Nat) : ∀ (src recs : List Task),
    recs.Nodup → src.Nodup → recs.length < minT →
    minT ≤ recs.length + (src.filter (fun x => decide (x ∉ recs))).length →
    (fillLoop minT recs src).length = minT := by
  intro src
  induction src with
  | nil =>
    intro recs _ _ hlt hge
    simp only [List.filter_nil, List.length_nil, Nat.add_zero] at hge
    omega
  | cons t rest ih =>
    intro recs hrnd hsnd hlt hge
    have hrest_nd : rest.Nodup := (List.nodup_cons.mp hsnd).2
    have htni : t ∉ rest := (List.nodup_cons.mp hsnd).1
    unfold fillLoop
    by_cases hmem : t ∈ recs
    · rw [if_pos hmem]
      have hfil : List.filter (fun x => decide (x ∉ recs)) (t :: rest) =
          List.filter (fun x => decide (x ∉ recs)) rest := by
        rw [List.filter_cons]
        simp [hmem]
      rw [hfil] at hge
      exact ih recs hrnd hrest_nd hlt hge
    · rw [if_neg hmem]
      have hlen : (recs ++ [t]).length = recs.length + 1 := by simp
      by_cases hfull : minT ≤ (recs ++ [t]).length
      · rw [if_pos hfull]
        omega
      · rw [if_neg hfull]
        have hlt2 : (recs ++ [t]).length < minT := by omega
        have hnd2 : (recs ++ [t]).Nodup := by
          simp [List.nodup_append, hrnd, hmem]
        have hfe : List.filter (fun x => decide (x ∉ recs ++ [t])) rest =
            List.filter (fun x => decide (x ∉ recs)) rest := by
          apply List.filter_congr
          intro x hx
          have hxt : x ≠ t := fun he => htni (he ▸ hx)
          simp [List.mem_append, hxt]
        have hfil : List.filter (fun x => decide (x ∉ recs)) (t :: rest) =
            t :: List.filter (fun x => decide (x ∉ recs)) rest := by
          rw [List.filter_cons]
          simp [hmem]
        have hge2 : minT ≤ (recs ++ [t]).length +
            (rest.filter (fun x => decide (x ∉ recs ++ [t]))).length := by
          rw [hfe, hlen]
          rw [hfil] at hge
          simp only [List.length_cons] at hge
          omega
        exact ih (recs ++ [t]) hnd2 hrest_nd hlt2 hge2

/-- C7: whenever the capacity-matched list truncated to `max_tasks` falls
short of `min_tasks` while the whole (duplicate-free) non-critical pool has
at least `min_tasks` tasks, the recommender returns a result whose
recommended list has exactly `min_tasks` entries, backfilled from the
tax-sorted non-critical pool skipping tasks already selected. -/
theorem c7_backfill_guarantee (tcfg : AttentionTaxConfig) (ccfg : CriticalConfig)
    (minT maxT : Nat) (now : Int) (cap : Capacity) (agg : List Task)
    (matched : List Task)
    (hm : filter_by_capacity (nonCriticalOf tcfg ccfg now agg) cap = some matched)
    (hnd : (nonCriticalOf tcfg ccfg now agg).Nodup)
    (htrunc : ((sortBy taxLe matched).take maxT).length < minT)
    (hpool : minT ≤ (nonCriticalOf tcfg ccfg now agg).length) :
    ∃ r, recommend_next_actions tcfg ccfg minT maxT now cap agg = some r ∧
      r.recommended.length = minT := by
  refine ⟨⟨criticalOf tcfg ccfg now agg,
    fillLoop minT ((sortBy taxLe matched).take maxT)
      (sortBy taxLe (nonCriticalOf tcfg ccfg now agg))⟩, ?_, ?_⟩
  · unfold recommend_next_actions
    show (match filter_by_capacity (nonCriticalOf tcfg ccfg now agg) cap with
      | none => none
      | some matched =>
        let recs := List.take maxT (sortBy taxLe matched)
        let recs2 := if recs.length < minT then
            fillLoop minT recs (sortBy taxLe (nonCriticalOf tcfg ccfg now agg))
          else recs
        some (RecommendResult.mk (criticalOf tcfg ccfg now agg) recs2)) = _
    rw [hm]
    show some (RecommendResult.mk (criticalOf tcfg ccfg now agg)
      (if (List.take maxT (sortBy taxLe matched)).length < minT then
        fillLoop minT (List.take maxT (sortBy taxLe matched))
          (sortBy taxLe (nonCriticalOf tcfg ccfg now agg))
      else List.take maxT (sortBy taxLe matched))) = _
    rw [if_pos htrunc]
  · show (fillLoop minT ((sortBy taxLe matched).take maxT)
      (sortBy taxLe (nonCriticalOf tcfg ccfg now agg))).length = minT
    set nonCrit := nonCriticalOf tcfg ccfg now agg with hncdef
    set recs := (sortBy taxLe matched).take maxT with hrecsdef
    have hsubl : matched.Sublist nonCrit := filter_by_capacity_sublist _ _ _ hm
    have hmnd : matched.Nodup := List.Nodup.sublist hsubl hnd
    have hsortm := sortBy_perm taxLe matched
    have hsortnd : (sortBy taxLe matched).Nodup := hsortm.nodup_iff.mpr hmnd
    have hrecsnd : recs.Nodup :=
      List.Nodup.sublist (List.take_sublist maxT _) hsortnd
    have hrecssub : ∀ x ∈ recs, x ∈ nonCrit := by
      intro x hx
      exact hsubl.subset (hsortm.mem_iff.mp (List.mem_of_mem_take hx))
    have hsrc := sortBy_perm taxLe nonCrit
    have hsrcnd : (sortBy taxLe nonCrit).Nodup := hsrc.nodup_iff.mpr hnd
    have hAperm : List.Perm
        ((sortBy taxLe nonCrit).filter (fun x => decide (x ∈ recs))) recs := by
      apply List.Subperm.antisymm
      · apply List.subperm_of_subset (List.Nodup.filter _ hsrcnd)
        intro x hx
        exact of_decide_eq_true (List.mem_filter.mp hx).2
      · apply List.subperm_of_subset hrecsnd
        intro x hx
        rw [List.mem_filter]
        exact ⟨hsrc.mem_iff.mpr (hrecssub x hx), decide_eq_true hx⟩
    have hsplit := (List.filter_append_perm
      (fun x => decide (x ∈ recs)) (sortBy taxLe nonCrit)).length_eq
    rw [List.length_append] at hsplit
    have hsrclen : (sortBy taxLe nonCrit).length = nonCrit.length := hsrc.length_eq
    have hcount : ((sortBy taxLe nonCrit).filter
        (fun x => decide (x ∈ recs))).length = recs.length := hAperm.length_eq
    have hfeq : (sortBy taxLe nonCrit).filter (fun x => decide (x ∉ recs)) =
        (sortBy taxLe nonCrit).filter (fun x => !decide (x ∈ recs)) := by
      apply List.filter_congr
      intro x _
      exact decide_not
    have hge : minT ≤ recs.length +
        ((sortBy taxLe nonCrit).filter (fun x => decide (x ∉ recs))).length := by
      rw [hfeq]
      omega
    exact fillLoop_reaches minT (sortBy taxLe nonCrit) recs hrecsnd hsrcnd htrunc hge

/-- C7 witness: with `min_tasks = 2`, a low/low capacity, and two non-critical
medium/high tasks (so the capacity-matched set is empty), the recommended
list reaches exactly 2 tasks. -/
theorem c7_backfill_guarantee_witness :
    ∃ r, recommend_next_actions c7TaxCfg c7CritCfg 2 5 0
        { energy := "low", attention := "low" } [c7Task1, c7Task2] = some r ∧
      r.recommended.length = 2 := by
  refine c7_backfill_guarantee c7TaxCfg c7CritCfg 2 5 0
    { energy := "low", attention := "low" } [c7Task1, c7Task2] [] ?_ ?_ ?_ ?_
  · with_unfolding_all decide
  · with_unfolding_all decide
  · decide
  · with_unfolding_all decide

/-! Helper lemmas about the success count of `mark_complete`. -/

theorem succFold_shift (env : Env) (t : Task) (task_id : String) :
    ∀ (sys : List String) (n : Nat),
      sys.foldl (fun m s => match sysSucc env t task_id s with
        | some true => m + 1 | _ => m) n =
      n + sys.foldl (fun m s => match sysSucc env t task_id s with
        | some true => m + 1 | _ => m) 0 := by
  intro sys
  induction sys with
  | nil => intro n; simp
  | cons s rest ih =>
    intro n
    simp only [List.foldl_cons]
    rcases hs : sysSucc env t task_id s with _ | b
    · exact ih n
    · rcases b with _ | _
      · exact ih n
      · show (rest.foldl (fun m s => match sysSucc env t task_id s with
            | some true => m + 1 | _ => m) (n + 1)) =
          n + rest.foldl (fun m s => match sysSucc env t task_id s with
            | some true => m + 1 | _ => m) (0 + 1)
        rw [ih (n + 1), ih (0 + 1)]
        omega

theorem succFold_pos_iff (env : Env) (t : Task) (task_id : String) :
    ∀ sys : List String,
      (0 < sys.foldl (fun m s => match sysSucc env t task_id s with
        | some true => m + 1 | _ => m) 0 ↔
       ∃ s ∈ sys, sysSucc env t task_id s = some true) := by
  intro sys
  induction sys with
  | nil => simp
  | cons s rest ih =>
    simp only [List.foldl_cons]
    rcases hs : sysSucc env t task_id s with _ | b
    · show (0 < rest.foldl (fun m s => match sysSucc env t task_id s with
          | some true => m + 1 | _ => m) 0 ↔ _)
      rw [ih]
      constructor
      · rintro ⟨v, hv, hsv⟩
        exact ⟨v, List.mem_cons_of_mem s hv, hsv⟩
      · rintro ⟨v, hv, hsv⟩
        rcases List.mem_cons.mp hv with rfl | hv'
        · rw [hs] at hsv; cases hsv
        · exact ⟨v, hv', hsv⟩
    · rcases b with _ | _
      · show (0 < rest.foldl (fun m s => match sysSucc env t task_id s with
            | some true => m + 1 | _ => m) 0 ↔ _)
        rw [ih]
        constructor
        · rintro ⟨v, hv, hsv⟩
          exact ⟨v, List.mem_cons_of_mem s hv, hsv⟩
        · rintro ⟨v, hv, hsv⟩
          rcases List.mem_cons.mp hv with rfl | hv'
          · rw [hs] at hsv; cases hsv
          · exact ⟨v, hv', hsv⟩
      · show (0 < rest.foldl (fun m s => match sysSucc env t task_id s with
            | some true => m + 1 | _ => m) (0 + 1) ↔ _)
        rw [succFold_shift env t task_id rest (0 + 1)]
        constructor
        · intro _
          exact ⟨s, List.mem_cons_self _ _, hs⟩
        · intro _
          omega

theorem mark_success_iff (env : Env) (t : Task) (task_id : String)
    (sys : List String) :
    (if (sys.foldl (fun m s => match sysSucc env t task_id s with
          | some true => m + 1 | _ => m) 0) = sys.length then true
     else if 0 < sys.foldl (fun m s => match sysSucc env t task_id s with
          | some true => m + 1 | _ => m) 0 then true else false) = true ↔
    (∃ s ∈ sys, sysSucc env t task_id s = some true) ∨ sys = [] := by
  by_cases h1 : (sys.foldl (fun m s => match sysSucc env t task_id s with
      | some true => m + 1 | _ => m) 0) = sys.length
  · rw [if_pos h1]
    apply iff_of_true rfl
    cases hsys : sys with
    | nil => exact Or.inr rfl
    | cons a rest =>
      refine Or.inl ((succFold_pos_iff env t task_id _).mp ?_)
      rw [← hsys]
      rw [h1, hsys]
      simp
  · rw [if_neg h1]
    by_cases h2 : 0 < sys.foldl (fun m s => match sysSucc env t task_id s with
        | some true => m + 1 | _ => m) 0
    · rw [if_pos h2]
      exact iff_of_true rfl (Or.inl ((succFold_pos_iff env t task_id sys).mp h2))
    · rw [if_neg h2]
      apply iff_of_false (by simp)
      rintro (⟨s, hs, hss⟩ | hnil)
      · exact h2 ((succFold_pos_iff env t task_id sys).mpr ⟨s, hs, hss⟩)
      · subst hnil
        exact h1 rfl

/-- C8 (amended): `mark_complete` returns false (raising nothing) when no
aggregated task carries the requested id; when a task is found, the result is
true exactly when at least one of the named systems reports success, or the
named-systems list is empty (the "all succeeded" check passes vacuously —
unknown system names contribute neither success nor failure but still count
toward that check's total). -/
theorem c8_mark_complete (env : Env) (task_id : String)
    (systems : Option (List String)) :
    ((∀ t ∈ env.tasks, t.id ≠ task_id) →
      mark_complete env task_id systems = false) ∧
    (∀ t, env.tasks.find? (fun u => u.id == task_id) = some t →
      (mark_complete env task_id systems = true ↔
        (∃ s ∈ systems.getD t.source_systems,
          sysSucc env t task_id s = some true) ∨
          systems.getD t.source_systems = [])) := by
  constructor
  · intro hno
    unfold mark_complete
    have hfn : env.tasks.find? (fun u => u.id == task_id) = none := by
      rw [List.find?_eq_none]
      intro t ht
      simp only [beq_iff_eq]
      exact hno t ht
    rw [hfn]
  · intro t hfind
    unfold mark_complete
    rw [hfind]
    exact mark_success_iff env t task_id (systems.getD t.source_systems)

/-- C8 counterexample: on an explicitly empty systems list, `mark_complete`
returns true for an existing task even though no named system succeeded —
the claim's "true precisely when at least one named system succeeds" fails. -/
theorem c8_mark_complete_cex :
    mark_complete c8Env "t1" (some []) = true ∧
    ¬ (mark_complete c8Env "t1" (some []) = true ↔
        ∃ s ∈ ([] : List String), sysSucc c8Env c8Task "t1" s = some true) := by
  constructor
  · decide
  · intro h
    rcases h.mp (by decide) with ⟨s, hs, _⟩
    cases hs

/-- C8 witness: the amended semantics evaluated on an unknown id (false, no
exception) and on a found task whose only named system fails. -/
theorem c8_mark_complete_witness :
    mark_complete c8Env "zzz" none = false ∧
    (mark_complete c8Env "t1" (some ["obsidian"]) = true ↔
      (∃ s ∈ ["obsidian"], sysSucc c8Env c8Task "t1" s = some true) ∨
        (["obsidian"] : List String) = []) := by
  constructor
  · exact (c8_mark_complete c8Env "zzz" none).1 (by decide)
  · exact (c8_mark_complete c8Env "t1" (some ["obsidian"])).2 c8Task (by decide)

/-! Helper lemmas for validity preservation through the pipeline (C9). -/

theorem scanMerge_preserves (p : Task → Task → Bool) (P : Task → Prop)
    (hP : ∀ e d, P e → P (merge_duplicate e d)) (t : Task) :
    ∀ (kept r : List Task), (∀ u ∈ kept, P u) →
    scanMerge p kept t = some r → ∀ u ∈ r, P u := by
  intro kept
  induction kept with
  | nil => intro r _ h; cases h
  | cons u rest ih =>
    intro r hk h v hv
    by_cases hu : p t u = true
    · simp only [scanMerge, hu, if_true] at h
      injection h with h
      subst h
      rcases List.mem_cons.mp hv with rfl | hv'
      · exact hP u t (hk u (List.mem_cons_self _ _))
      · exact hk v (List.mem_cons_of_mem _ hv')
    · rw [Bool.not_eq_true] at hu
      simp only [scanMerge, hu, Bool.false_eq_true, if_false] at h
      rcases hr : scanMerge p rest t with _ | r2
      · rw [hr] at h; cases h
      · rw [hr] at h
        injection h with h
        subst h
        rcases List.mem_cons.mp hv with rfl | hv'
        · exact hk v (List.mem_cons_self _ _)
        · exact ih r2 (fun w hw => hk w (List.mem_cons_of_mem _ hw)) hr v hv'

theorem dedupAux_preserves (P : Task → Prop)
    (hP : ∀ e d, P e → P (merge_duplicate e d)) :
    ∀ (l kept : List Task), (∀ u ∈ kept, P u) → (∀ u ∈ l, P u) →
    ∀ u ∈ dedupTasksAux kept l, P u := by
  intro l
  induction l with
  | nil => intro kept hk _ u hu; exact hk u hu
  | cons t rest ih =>
    intro kept hk hl u hu
    have hPt : P t := hl t (List.mem_cons_self _ _)
    have hrest : ∀ v ∈ rest, P v := fun v hv => hl v (List.mem_cons_of_mem _ hv)
    rcases hs : scanMerge matchesB kept t with _ | k2
    · simp only [dedupTasksAux, hs] at hu
      refine ih (kept ++ [t]) ?_ hrest u hu
      intro v hv
      rcases List.mem_append.mp hv with hv' | hv'
      · exact hk v hv'
      · rw [List.mem_singleton] at hv'
        subst hv'
        exact hPt
    · simp only [dedupTasksAux, hs] at hu
      exact ih k2 (scanMerge_preserves matchesB P hP t kept k2 hk hs) hrest u hu

theorem pipelineTasks_valid (tcfg : AttentionTaxConfig) (agg : List Task)
    (h : ∀ t ∈ agg, validLevel t.energy ∧ validLevel t.attention) :
    ∀ t ∈ pipelineTasks tcfg agg,
      validLevel t.energy ∧ validLevel t.attention := by
  intro t ht
  unfold pipelineTasks at ht
  rcases List.mem_map.mp ht with ⟨u, hu, rfl⟩
  have hu2 : u ∈ deduplicate_tasks agg := (List.mem_filter.mp hu).1
  have := dedupAux_preserves
    (fun v => validLevel v.energy ∧ validLevel v.attention)
    (fun e d he => he) agg [] (fun v hv => absurd hv (List.not_mem_nil v)) h u hu2
  exact this

/-- C9 (amended): the scorer resolves lookups through documented defaults and
never fails — an unknown priority scores with base 2 and an unknown energy
level with multiplier 1 — but the capacity filter requires energy and
attention inside the closed enumeration; for enumeration-valid task data the
filter, and the whole recommendation pipeline, return a result rather than
raising. -/
theorem c9_default_fallbacks :
    (∀ (cfg : AttentionTaxConfig) (t : Task),
      cfg.priority_base.find? (fun p => p.1 == t.priority) = none →
      cfg.energy_multiplier.find? (fun p => p.1 == t.energy) = none →
      calculate_attention_tax cfg t =
        2 * 1 * (if t.due_date.isSome then cfg.deadline_multiplier_has
                 else cfg.deadline_multiplier_no)) ∧
    (∀ (ts : List Task) (cap : Capacity),
      validLevel cap.energy → validLevel cap.attention →
      (∀ t ∈ ts, validLevel t.energy ∧ validLevel t.attention) →
      (filter_by_capacity ts cap).isSome = true) ∧
    (∀ (tcfg : AttentionTaxConfig) (ccfg : CriticalConfig) (minT maxT : Nat)
      (now : Int) (cap : Capacity) (agg : List Task),
      validLevel cap.energy → validLevel cap.attention →
      (∀ t ∈ agg, validLevel t.energy ∧ validLevel t.attention) →
      (recommend_next_actions tcfg ccfg minT maxT now cap agg).isSome = true) := by
  have hfilter : ∀ (ts : List Task) (cap : Capacity),
      validLevel cap.energy → validLevel cap.attention →
      (∀ t ∈ ts, validLevel t.energy ∧ validLevel t.attention) →
      (filter_by_capacity ts cap).isSome = true := by
    intro ts cap hce hca hts
    unfold filter_by_capacity
    rw [dictFindN_valid _ hce, attention_levels_eq, dictFindN_valid _ hca]
    show (filterCapAux (lvl cap.energy) (lvl cap.attention) ts).isSome = true
    rw [filterCapAux_valid _ _ ts hts]
    rfl
  refine ⟨?_, hfilter, ?_⟩
  · intro cfg t h1 h2
    unfold calculate_attention_tax dictGetQ
    rw [h1, h2]
  · intro tcfg ccfg minT maxT now cap agg hce hca hagg
    have hncv : ∀ t ∈ nonCriticalOf tcfg ccfg now agg,
        validLevel t.energy ∧ validLevel t.attention := by
      intro t ht
      unfold nonCriticalOf at ht
      exact pipelineTasks_valid tcfg agg hagg t (List.mem_filter.mp ht).1
    have hfs := hfilter (nonCriticalOf tcfg ccfg now agg) cap hce hca hncv
    rcases hf : filter_by_capacity (nonCriticalOf tcfg ccfg now agg) cap
      with _ | m
    · rw [hf] at hfs; cases hfs
    · unfold recommend_next_actions
      show (match filter_by_capacity (nonCriticalOf tcfg ccfg now agg) cap with
        | none => none
        | some matched =>
          let recs := List.take maxT (sortBy taxLe matched)
          let recs2 := if recs.length < minT then
              fillLoop minT recs (sortBy taxLe (nonCriticalOf tcfg ccfg now agg))
            else recs
          some (RecommendResult.mk (criticalOf tcfg ccfg now agg)
            recs2)).isSome = true
      rw [hf]
      rfl

/-- C9 counterexample: a task whose energy value `extreme` lies outside the
closed enumeration makes the recommendation pipeline raise `KeyError` in the
capacity filter (modelled as `none`) even though the scorer handles the same
task gracefully through its defaults. -/
theorem c9_pipeline_raises_cex :
    recommend_next_actions c9TaxCfg c9CritCfg 1 5 0 c9Cap [c9BadTask] = none ∧
    calculate_attention_tax c9TaxCfg c9BadTask = 2 := by
  constructor
  · with_unfolding_all decide
  · with_unfolding_all decide

/-- C9 witness: the fallback score of the out-of-enumeration task, and the
filter and pipeline succeeding on enumeration-valid data. -/
theorem c9_default_fallbacks_witness :
    calculate_attention_tax c9TaxCfg c9BadTask =
      2 * 1 * c9TaxCfg.deadline_multiplier_no ∧
    (filter_by_capacity [{ c9BadTask with energy := "low" }] c9Cap).isSome = true ∧
    (recommend_next_actions c9TaxCfg c9CritCfg 1 5 0 c9Cap
      [{ c9BadTask with energy := "low" }]).isSome = true := by
  refine ⟨?_, ?_, ?_⟩
  · exact c9_default_fallbacks.1 c9TaxCfg c9BadTask (by decide) (by decide)
  · exact c9_default_fallbacks.2.1 _ c9Cap (by decide) (by decide) (by decide)
  · exact c9_default_fallbacks.2.2 c9TaxCfg c9CritCfg 1 5 0 c9Cap _
      (by decide) (by decide) (by decide)

end TaskMgr
